import Mathlib

/-!
Shallow embedding of the CHIP-8 CPU core (`src/cpu/mod.rs` of schip8).

Machine integers are modelled as `Nat`: `u8`/`u16` values never overflow in
the operations below (fetch composes two bytes `< 256` into a word `< 65536`;
push/pop move values unchanged), and `usize` counters only ever increase by
small constants. Fixed Rust arrays `[T; 16]` are modelled as total functions
`Fin 16 → T`. Rust's `&mut self` methods become functions returning the new
state; fallible methods return an `Except` result paired with the new state,
the error branch carrying the state the Rust code leaves behind.
-/

/-- Constant `NUM_REGISTERS: usize = 0x10` from the source. -/
def NUM_REGISTERS : Nat := 0x10

/-- Constant `STACK_SIZE: usize = 16` from the source. -/
def STACK_SIZE : Nat := 16

/-- The error variants of `ChipError` used by the CPU core
(`StackOverflow(usize)`, `StackUnderflow()`,
`AddressOutOfBounds { address, limit }`). -/
inductive ChipError where
  | stackOverflow (len : Nat) : ChipError
  | stackUnderflow : ChipError
  | addressOutOfBounds (address : Nat) (limit : Nat) : ChipError
  deriving DecidableEq, Repr

/-- The `Cpu` struct: 16 byte registers `v`, index register `i`, program
counter `pc`, stack pointer `sp`, two timers, a 16-slot call stack and a
16-key keypad. -/
structure Cpu where
  v : Fin 16 → Nat
  i : Nat
  pc : Nat
  sp : Nat
  timer_delay : Nat
  timer_sound : Nat
  stack : Fin 16 → Nat
  keypad : Fin 16 → Bool

/-- Read `stack[idx]`. Rust panics when `idx ≥ 16`; the model returns 0 there,
and every theorem below only reads in bounds. -/
def getStack (s : Fin 16 → Nat) (idx : Nat) : Nat :=
  if h : idx < 16 then s ⟨idx, h⟩ else 0

/-- Write `stack[idx] = val`. Rust panics when `idx ≥ 16`; the model leaves
the array unchanged there, and every theorem below only writes in bounds. -/
def setStack (s : Fin 16 → Nat) (idx : Nat) (val : Nat) : Fin 16 → Nat :=
  if h : idx < 16 then Function.update s ⟨idx, h⟩ val else s

/-- The `Default` instance for `Cpu`: every field zeroed. -/
def Cpu.mk0 : Cpu :=
  { v := fun _ => 0
    i := 0
    pc := 0
    sp := 0
    timer_delay := 0
    timer_sound := 0
    stack := fun _ => 0
    keypad := fun _ => false }

/-- `Cpu::push`: fail with `StackOverflow(self.stack.len())` when
`sp == STACK_SIZE - 1` (note `self.stack.len() = STACK_SIZE` for the fixed
array `[u16; STACK_SIZE]`); otherwise increment `sp` first, then write
`value` at the new `sp`. -/
def Cpu.push (c : Cpu) (value : Nat) : Except ChipError Unit × Cpu :=
  if c.sp = STACK_SIZE - 1 then
    (.error (.stackOverflow STACK_SIZE), c)
  else
    (.ok (), { c with sp := c.sp + 1, stack := setStack c.stack (c.sp + 1) value })

/-- `Cpu::pop`: fail with `StackUnderflow` when `sp == 0`; otherwise read
`stack[sp]`, then decrement `sp`. -/
def Cpu.pop (c : Cpu) : Except ChipError Nat × Cpu :=
  if c.sp = 0 then
    (.error .stackUnderflow, c)
  else
    (.ok (getStack c.stack c.sp), { c with sp := c.sp - 1 })

/-- Result of `Cpu::fetch`: the returned `Result<u16, ChipError>`, the CPU
state after the call, and the memory buffer after the call (`fetch` takes
`&mut [u8]`). -/
structure FetchResult where
  result : Except ChipError Nat
  cpu : Cpu
  memory : List Nat

/-- `Cpu::fetch`: fail with `AddressOutOfBounds { address: pc + 1, limit: memory.len() }`
when `pc + 1 >= memory.len()`; otherwise compose the two bytes at `pc`
big-endian (`(hi << 8) | lo`) and advance `pc` by 2. The body never writes
to `memory`, so both branches return it unchanged. -/
def Cpu.fetch (c : Cpu) (memory : List Nat) : FetchResult :=
  if c.pc + 1 ≥ memory.length then
    ⟨.error (.addressOutOfBounds (c.pc + 1) memory.length), c, memory⟩
  else
    let hi := memory.getD c.pc 0
    let lo := memory.getD (c.pc + 1) 0
    ⟨.ok ((hi <<< 8) ||| lo), { c with pc := c.pc + 2 }, memory⟩

/-- `Cpu::reset`: set every field of `self` back to zero, ignoring the
previous state. -/
def Cpu.reset (_c : Cpu) : Cpu :=
  { v := fun _ => 0
    i := 0
    pc := 0
    sp := 0
    timer_delay := 0
    timer_sound := 0
    stack := fun _ => 0
    keypad := fun _ => false }

/-- Result of `Cpu::step`: the returned `Result<(), ChipError>` and the CPU,
memory and screen state after the call. -/
structure StepResult (Screen : Type) where
  result : Except ChipError Unit
  cpu : Cpu
  memory : List Nat
  screen : Screen

/-- `Cpu::step`: fetch, decode, execute, with `?` propagation on fetch and
execute. Modelled from the spec: the decode collaborator (`Opcode::from`, a
pure total function on the fetched word) and the execute collaborator
(`execute(op, cpu, memory, screen) -> Result<(), ChipError>`) live in
`src/cpu/opcodes.rs`, which is not among the sources; per the spec's
interface contract they are taken here as parameters, `execute` returning
its result together with the state it leaves behind. -/
def Cpu.step {Opcode Screen : Type}
    (decode : Nat → Opcode)
    (execute : Opcode → Cpu → List Nat → Screen → StepResult Screen)
    (c : Cpu) (memory : List Nat) (screen : Screen) : StepResult Screen :=
  let f := c.fetch memory
  match f.result with
  | .error e => ⟨.error e, f.cpu, f.memory, screen⟩
  | .ok opcode_hex =>
    let r := execute (decode opcode_hex) f.cpu f.memory screen
    match r.result with
    | .error e => ⟨.error e, r.cpu, r.memory, r.screen⟩
    | .ok _ => ⟨.ok (), r.cpu, r.memory, r.screen⟩

/-- Iterate `Cpu::push` over a list of values, left to right, stopping at the
first error (as a driving loop using `?` would). -/
def Cpu.pushList (c : Cpu) : List Nat → Except ChipError Unit × Cpu
  | [] => (.ok (), c)
  | val :: rest =>
    let p := c.push val
    match p.1 with
    | .ok _ => p.2.pushList rest
    | .error e => (.error e, p.2)

/-- Iterate `Cpu::pop` `n` times, collecting the popped values in order,
stopping at the first error. -/
def Cpu.popN (c : Cpu) : Nat → Except ChipError (List Nat) × Cpu
  | 0 => (.ok [], c)
  | n + 1 =>
    let p := c.pop
    match p.1 with
    | .error e => (.error e, p.2)
    | .ok val =>
      let q := p.2.popN n
      match q.1 with
      | .error e => (.error e, q.2)
      | .ok vals => (.ok (val :: vals), q.2)

/-- Equality of all `Cpu` fields except `sp` and `stack`. -/
def framesEq (a b : Cpu) : Prop :=
  a.v = b.v ∧ a.i = b.i ∧ a.pc = b.pc ∧
  a.timer_delay = b.timer_delay ∧ a.timer_sound = b.timer_sound ∧
  a.keypad = b.keypad

/-! Helper lemmas about the stack array model. -/

/-- Reading an in-bounds index is just function application. -/
lemma getStack_lt (s : Fin 16 → Nat) (idx : Nat) (h : idx < 16) :
    getStack s idx = s ⟨idx, h⟩ := by
  simp [getStack, h]

/-- An in-bounds write is read back at the written index. -/
lemma setStack_apply_self (s : Fin 16 → Nat) (idx val : Nat) (h : idx < 16) :
    setStack s idx val ⟨idx, h⟩ = val := by
  simp [setStack, h]

/-- A write leaves every other index unchanged. -/
lemma setStack_apply_ne (s : Fin 16 → Nat) (idx val : Nat) (k : Fin 16)
    (h : k.val ≠ idx) :
    setStack s idx val k = s k := by
  unfold setStack
  split
  · exact Function.update_noteq (Fin.ne_of_val_ne h) _ _
  · rfl

/-- Successful push, unfolded. -/
lemma push_ok (c : Cpu) (val : Nat) (h : c.sp ≠ STACK_SIZE - 1) :
    c.push val =
      (.ok (), { c with sp := c.sp + 1, stack := setStack c.stack (c.sp + 1) val }) := by
  simp [Cpu.push, h]

/-- Successful pop, unfolded. -/
lemma pop_ok (c : Cpu) (h : c.sp ≠ 0) :
    c.pop = (.ok (getStack c.stack c.sp), { c with sp := c.sp - 1 }) := by
  simp [Cpu.pop, h]

/-- C2: push fails with StackOverflow (carrying the backing array's length,
16) exactly when `sp = STACK_SIZE - 1 = 15`, leaving the state untouched;
for any other in-range `sp` it succeeds, increments `sp` by exactly 1 and
writes the value at the new `sp` (so the first push on an empty stack lands
at index 1). -/
theorem push_overflow_spec (c : Cpu) (val : Nat) (h : c.sp ≤ STACK_SIZE - 1) :
    (c.push val = (.error (.stackOverflow STACK_SIZE), c) ↔ c.sp = STACK_SIZE - 1) ∧
    (c.sp ≠ STACK_SIZE - 1 →
      (c.push val).1 = .ok () ∧
      (c.push val).2.sp = c.sp + 1 ∧
      getStack (c.push val).2.stack (c.sp + 1) = val ∧
      (c.push val).2.v = c.v ∧ (c.push val).2.i = c.i ∧ (c.push val).2.pc = c.pc ∧
      (c.push val).2.timer_delay = c.timer_delay ∧
      (c.push val).2.timer_sound = c.timer_sound ∧
      (c.push val).2.keypad = c.keypad) := by
  by_cases h15 : c.sp = STACK_SIZE - 1
  · simp [Cpu.push, h15]
  · have hlt : c.sp + 1 < 16 := by
      simp [STACK_SIZE] at h h15
      omega
    refine ⟨?_, fun _ => ?_⟩
    · simp [Cpu.push, h15]
    · simp [Cpu.push, h15, setStack_apply_self _ _ _ hlt, getStack_lt _ _ hlt]

/-- Witness for `push_overflow_spec` at the freshly constructed CPU and
value `0x200`: the push succeeds, lands at index 1 and bumps `sp` to 1. -/
theorem push_overflow_spec_witness :
    Cpu.mk0.sp ≤ STACK_SIZE - 1 ∧
    ((Cpu.mk0.push 0x200 = (.error (.stackOverflow STACK_SIZE), Cpu.mk0) ↔
        Cpu.mk0.sp = STACK_SIZE - 1) ∧
      (Cpu.mk0.sp ≠ STACK_SIZE - 1 →
        (Cpu.mk0.push 0x200).1 = .ok () ∧
        (Cpu.mk0.push 0x200).2.sp = Cpu.mk0.sp + 1 ∧
        getStack (Cpu.mk0.push 0x200).2.stack (Cpu.mk0.sp + 1) = 0x200 ∧
        (Cpu.mk0.push 0x200).2.v = Cpu.mk0.v ∧ (Cpu.mk0.push 0x200).2.i = Cpu.mk0.i ∧
        (Cpu.mk0.push 0x200).2.pc = Cpu.mk0.pc ∧
        (Cpu.mk0.push 0x200).2.timer_delay = Cpu.mk0.timer_delay ∧
        (Cpu.mk0.push 0x200).2.timer_sound = Cpu.mk0.timer_sound ∧
        (Cpu.mk0.push 0x200).2.keypad = Cpu.mk0.keypad)) :=
  ⟨by decide, push_overflow_spec Cpu.mk0 0x200 (by decide)⟩

/-- C3: pop fails with StackUnderflow exactly when `sp = 0`, leaving the
state untouched; otherwise it returns `stack[sp]` (the current top) and the
same state with only `sp` decremented by 1. -/
theorem pop_underflow_spec (c : Cpu) (h : c.sp ≤ STACK_SIZE - 1) :
    ((c.pop).1 = .error .stackUnderflow ↔ c.sp = 0) ∧
    (c.sp = 0 → c.pop = (.error .stackUnderflow, c)) ∧
    (c.sp ≠ 0 → c.pop = (.ok (getStack c.stack c.sp), { c with sp := c.sp - 1 })) := by
  by_cases h0 : c.sp = 0 <;> simp [Cpu.pop, h0]

/-- Witness for `pop_underflow_spec` at a CPU whose `sp` is 3: the pop
succeeds, returns slot 3 and decrements `sp`. -/
theorem pop_underflow_spec_witness :
    ({ Cpu.mk0 with sp := 3 } : Cpu).sp ≤ STACK_SIZE - 1 ∧
    ((({ Cpu.mk0 with sp := 3 } : Cpu).pop).1 = .error .stackUnderflow ↔
        ({ Cpu.mk0 with sp := 3 } : Cpu).sp = 0) ∧
    (({ Cpu.mk0 with sp := 3 } : Cpu).sp = 0 →
      ({ Cpu.mk0 with sp := 3 } : Cpu).pop =
        (.error .stackUnderflow, { Cpu.mk0 with sp := 3 })) ∧
    (({ Cpu.mk0 with sp := 3 } : Cpu).sp ≠ 0 →
      ({ Cpu.mk0 with sp := 3 } : Cpu).pop =
        (.ok (getStack ({ Cpu.mk0 with sp := 3 } : Cpu).stack
                ({ Cpu.mk0 with sp := 3 } : Cpu).sp),
         { ({ Cpu.mk0 with sp := 3 } : Cpu) with
             sp := ({ Cpu.mk0 with sp := 3 } : Cpu).sp - 1 })) := by
  have h := pop_underflow_spec { Cpu.mk0 with sp := 3 } (by decide)
  exact ⟨by decide, h.1, h.2.1, h.2.2⟩

/-- C4: with at least two bytes available at the program counter, fetch
succeeds, returns the big-endian composition `(memory[pc] <<< 8) ||| memory[pc+1]`
of the two bytes, advances `pc` by exactly 2, and leaves memory as it was. -/
theorem fetch_bigendian_spec (c : Cpu) (memory : List Nat)
    (h : c.pc + 1 < memory.length) :
    c.fetch memory =
      ⟨.ok ((memory.getD c.pc 0 <<< 8) ||| memory.getD (c.pc + 1) 0),
       { c with pc := c.pc + 2 }, memory⟩ := by
  unfold Cpu.fetch
  rw [if_neg (by omega)]

/-- Witness for `fetch_bigendian_spec` at the spec's own example: bytes
`[0x12, 0x34]` at `pc = 0` yield the word `0x1234` and `pc = 2`. -/
theorem fetch_bigendian_spec_witness :
    Cpu.mk0.pc + 1 < ([0x12, 0x34] : List Nat).length ∧
    Cpu.mk0.fetch [0x12, 0x34] =
      ⟨.ok ((([0x12, 0x34] : List Nat).getD Cpu.mk0.pc 0 <<< 8) |||
              ([0x12, 0x34] : List Nat).getD (Cpu.mk0.pc + 1) 0),
       { Cpu.mk0 with pc := Cpu.mk0.pc + 2 }, [0x12, 0x34]⟩ ∧
    (Cpu.mk0.fetch [0x12, 0x34]).result = .ok 0x1234 ∧
    (Cpu.mk0.fetch [0x12, 0x34]).cpu.pc = 2 :=
  ⟨by decide, fetch_bigendian_spec Cpu.mk0 [0x12, 0x34] (by decide), rfl, rfl⟩

/-- C5: fetch fails exactly when `pc + 1 ≥ memory.len()`, and in that case
it returns `AddressOutOfBounds` carrying `address = pc + 1` and
`limit = memory.len()`, with CPU state and memory untouched. -/
theorem fetch_oob_spec (c : Cpu) (memory : List Nat) :
    ((∃ e, (c.fetch memory).result = .error e) ↔ c.pc + 1 ≥ memory.length) ∧
    (c.pc + 1 ≥ memory.length →
      c.fetch memory =
        ⟨.error (.addressOutOfBounds (c.pc + 1) memory.length), c, memory⟩) := by
  by_cases hge : c.pc + 1 ≥ memory.length <;> simp [Cpu.fetch, hge]

/-- Witness for `fetch_oob_spec` on an empty memory buffer: fetch fails with
`AddressOutOfBounds { address: 1, limit: 0 }` and changes nothing. -/
theorem fetch_oob_spec_witness :
    Cpu.mk0.pc + 1 ≥ ([] : List Nat).length ∧
    Cpu.mk0.fetch [] =
      ⟨.error (.addressOutOfBounds (Cpu.mk0.pc + 1) ([] : List Nat).length),
       Cpu.mk0, []⟩ :=
  ⟨by decide, (fetch_oob_spec Cpu.mk0 []).2 (by decide)⟩

/-- C6: reset produces, from any prior state, exactly the freshly
constructed (Default) CPU: all registers, index, program counter, stack
pointer, timers and call-stack slots 0 and all keypad flags false; being a
total function, it cannot fail. -/
theorem reset_eq_default (c : Cpu) :
    c.reset = Cpu.mk0 ∧
    (∀ r : Fin 16, c.reset.v r = 0) ∧ c.reset.i = 0 ∧ c.reset.pc = 0 ∧
    c.reset.sp = 0 ∧ c.reset.timer_delay = 0 ∧ c.reset.timer_sound = 0 ∧
    (∀ k : Fin 16, c.reset.stack k = 0) ∧
    (∀ k : Fin 16, c.reset.keypad k = false) :=
  ⟨rfl, fun _ => rfl, rfl, rfl, rfl, rfl, rfl, fun _ => rfl, fun _ => rfl⟩

/-- C10: fetch never writes to the memory buffer it receives by mutable
reference, and (in both the success and the failure branch) every CPU field
other than `pc` is left unchanged. -/
theorem fetch_frame (c : Cpu) (memory : List Nat) :
    (c.fetch memory).memory = memory ∧
    (c.fetch memory).cpu.v = c.v ∧ (c.fetch memory).cpu.i = c.i ∧
    (c.fetch memory).cpu.sp = c.sp ∧
    (c.fetch memory).cpu.timer_delay = c.timer_delay ∧
    (c.fetch memory).cpu.timer_sound = c.timer_sound ∧
    (c.fetch memory).cpu.stack = c.stack ∧
    (c.fetch memory).cpu.keypad = c.keypad := by
  by_cases hge : c.pc + 1 ≥ memory.length <;> simp [Cpu.fetch, hge]

/-- C7: the stack pointer is a valid index into the 16-slot call stack
(`sp ≤ STACK_SIZE - 1`) on the freshly constructed CPU and is preserved by
push, pop, fetch and reset, whether they succeed or fail. -/
theorem sp_always_valid :
    Cpu.mk0.sp ≤ STACK_SIZE - 1 ∧
    (∀ (c : Cpu) (val : Nat), c.sp ≤ STACK_SIZE - 1 →
      (c.push val).2.sp ≤ STACK_SIZE - 1) ∧
    (∀ c : Cpu, c.sp ≤ STACK_SIZE - 1 → (c.pop).2.sp ≤ STACK_SIZE - 1) ∧
    (∀ (c : Cpu) (memory : List Nat), c.sp ≤ STACK_SIZE - 1 →
      (c.fetch memory).cpu.sp ≤ STACK_SIZE - 1) ∧
    (∀ c : Cpu, c.reset.sp ≤ STACK_SIZE - 1) := by
  refine ⟨by decide, ?_, ?_, ?_, fun c => by simp [Cpu.reset, STACK_SIZE]⟩
  · intro c val h
    by_cases h15 : c.sp = STACK_SIZE - 1
    · unfold Cpu.push
      rw [if_pos h15]
      exact h
    · unfold Cpu.push
      rw [if_neg h15]
      show c.sp + 1 ≤ STACK_SIZE - 1
      simp [STACK_SIZE] at h h15 ⊢
      omega
  · intro c h
    by_cases h0 : c.sp = 0
    · unfold Cpu.pop
      rw [if_pos h0]
      exact h
    · unfold Cpu.pop
      rw [if_neg h0]
      show c.sp - 1 ≤ STACK_SIZE - 1
      omega
  · intro c memory h
    by_cases hge : c.pc + 1 ≥ memory.length <;> simp [Cpu.fetch, hge] <;> exact h

/-- Witness for `sp_always_valid`: from the fresh CPU, one push keeps the
stack pointer within the valid range. -/
theorem sp_always_valid_witness :
    Cpu.mk0.sp ≤ STACK_SIZE - 1 ∧ (Cpu.mk0.push 7).2.sp ≤ STACK_SIZE - 1 :=
  ⟨by decide, sp_always_valid.2.1 Cpu.mk0 7 (by decide)⟩

/-- C8 fails on the code as stated: with the two-byte memory `[0x12, 0x34]`
and `pc = 0` (a valid memory index), fetch succeeds and sets `pc` to 2,
which is the memory length and thus not strictly within `[0, memory_length)`. -/
theorem pc_strict_bound_counterexample :
    Cpu.mk0.pc < ([0x12, 0x34] : List Nat).length ∧
    ¬ ((Cpu.mk0.fetch [0x12, 0x34]).cpu.pc < ([0x12, 0x34] : List Nat).length) := by
  constructor <;> decide

/-- C8 amended: starting from a program counter that is a valid memory
index, after any fetch (successful or failed) the program counter is at
most the memory length — a successful fetch of the last instruction word
leaves `pc` equal to the length, one past the final byte. -/
theorem pc_at_most_length (c : Cpu) (memory : List Nat)
    (h : c.pc < memory.length) :
    (c.fetch memory).cpu.pc ≤ memory.length := by
  by_cases hge : c.pc + 1 ≥ memory.length <;> simp [Cpu.fetch, hge] <;> omega

/-- Witness for `pc_at_most_length`: fetching the only instruction of a
two-byte memory leaves `pc = 2 ≤ 2`. -/
theorem pc_at_most_length_witness :
    Cpu.mk0.pc < ([0x12, 0x34] : List Nat).length ∧
    (Cpu.mk0.fetch [0x12, 0x34]).cpu.pc ≤ ([0x12, 0x34] : List Nat).length :=
  ⟨by decide, pc_at_most_length Cpu.mk0 [0x12, 0x34] (by decide)⟩

/-- C9: step short-circuits on the first error. When fetch fails, step
returns the same error with the CPU and memory exactly as fetch left them,
and its outcome does not depend on the decode or execute collaborator at
all (they are never invoked); when fetch succeeds and execute fails, the
execute error propagates unchanged together with the state execute left
behind, with no recovery inside step. -/
theorem step_error_propagation {Opcode Screen : Type}
    (decode : Nat → Opcode)
    (execute : Opcode → Cpu → List Nat → Screen → StepResult Screen)
    (c : Cpu) (memory : List Nat) (screen : Screen) :
    (∀ e, (c.fetch memory).result = .error e →
      Cpu.step decode execute c memory screen =
        ⟨.error e, (c.fetch memory).cpu, (c.fetch memory).memory, screen⟩ ∧
      ∀ (decode2 : Nat → Opcode)
        (execute2 : Opcode → Cpu → List Nat → Screen → StepResult Screen),
        Cpu.step decode2 execute2 c memory screen =
          Cpu.step decode execute c memory screen) ∧
    (∀ w e, (c.fetch memory).result = .ok w →
      (execute (decode w) (c.fetch memory).cpu (c.fetch memory).memory
          screen).result = .error e →
      Cpu.step decode execute c memory screen =
        ⟨.error e,
         (execute (decode w) (c.fetch memory).cpu (c.fetch memory).memory
             screen).cpu,
         (execute (decode w) (c.fetch memory).cpu (c.fetch memory).memory
             screen).memory,
         (execute (decode w) (c.fetch memory).cpu (c.fetch memory).memory
             screen).screen⟩) := by
  constructor
  · intro e he
    constructor
    · simp [Cpu.step, he]
    · intro decode2 execute2
      simp [Cpu.step, he]
  · intro w e hw hex
    simp [Cpu.step, hw, hex]

/-- Witness for `step_error_propagation` over trivial collaborators on an
empty memory: fetch fails with `AddressOutOfBounds { address: 1, limit: 0 }`
and step returns exactly that error. -/
theorem step_error_propagation_witness :
    (Cpu.mk0.fetch []).result = .error (.addressOutOfBounds 1 0) ∧
    Cpu.step (fun _ => ()) (fun _ c2 m2 s2 => StepResult.mk (.ok ()) c2 m2 s2)
        Cpu.mk0 [] () =
      ⟨.error (.addressOutOfBounds 1 0), (Cpu.mk0.fetch []).cpu,
       (Cpu.mk0.fetch []).memory, ()⟩ :=
  ⟨rfl,
   ((step_error_propagation (fun _ => ())
       (fun _ c2 m2 s2 => StepResult.mk (.ok ()) c2 m2 s2)
       Cpu.mk0 [] ()).1 (.addressOutOfBounds 1 0) rfl).1⟩

/-- framesEq is reflexive. -/
lemma framesEq_refl (a : Cpu) : framesEq a a :=
  ⟨rfl, rfl, rfl, rfl, rfl, rfl⟩

/-- framesEq is transitive. -/
lemma framesEq_trans {a b c : Cpu} (h1 : framesEq a b) (h2 : framesEq b c) :
    framesEq a c := by
  obtain ⟨x1, x2, x3, x4, x5, x6⟩ := h1
  obtain ⟨y1, y2, y3, y4, y5, y6⟩ := h2
  exact ⟨x1.trans y1, x2.trans y2, x3.trans y3, x4.trans y4, x5.trans y5, x6.trans y6⟩

/-- Splitting a run of pops: popping `m + n` times is popping `m` times and
then `n` more, concatenating the collected values. -/
lemma popN_add (m : Nat) : ∀ (n : Nat) (c c1 c2 : Cpu) (l1 l2 : List Nat),
    c.popN m = (.ok l1, c1) → c1.popN n = (.ok l2, c2) →
    c.popN (m + n) = (.ok (l1 ++ l2), c2) := by
  induction m with
  | zero =>
    intro n c c1 c2 l1 l2 h1 h2
    simp [Cpu.popN] at h1
    obtain ⟨rfl, rfl⟩ := h1
    simpa using h2
  | succ k ih =>
    intro n c c1 c2 l1 l2 h1 h2
    have hstep : k + 1 + n = (k + n) + 1 := by omega
    rw [hstep]
    unfold Cpu.popN at h1 ⊢
    cases hpop : c.pop with
    | mk res cA =>
      rw [hpop] at h1
      cases res with
      | error e => simp at h1
      | ok val =>
        simp only at h1 ⊢
        cases hrec : cA.popN k with
        | mk res2 cB =>
          rw [hrec] at h1
          cases res2 with
          | error e => simp at h1
          | ok vals =>
            simp at h1
            obtain ⟨rfl, rfl⟩ := h1
            rw [ih n cA cB c2 vals l2 hrec h2]
            simp

/-- Main LIFO lemma: from any state with room for all of `vs`
(`sp + |vs| ≤ STACK_SIZE - 1`), pushing `vs` in order succeeds, raising
`sp` by `|vs|` and changing no other non-stack field; popping `|vs|` times
then succeeds, returns `vs` reversed, restores `sp`, and leaves every stack
slot at or below the original `sp` unchanged. -/
lemma push_pop_aux : ∀ (vs : List Nat) (c : Cpu),
    c.sp + vs.length ≤ STACK_SIZE - 1 →
    ∃ c1 c2,
      c.pushList vs = (.ok (), c1) ∧
      c1.sp = c.sp + vs.length ∧ framesEq c1 c ∧
      c1.popN vs.length = (.ok vs.reverse, c2) ∧
      c2.sp = c.sp ∧ framesEq c2 c ∧
      ∀ k : Fin 16, k.val ≤ c.sp → c2.stack k = c.stack k := by
  intro vs
  induction vs with
  | nil =>
    intro c _
    exact ⟨c, c, rfl, rfl, framesEq_refl c, rfl, rfl, framesEq_refl c,
      fun _ _ => rfl⟩
  | cons val rest ih =>
    intro c h
    have hS : STACK_SIZE = 16 := rfl
    have hlen : (val :: rest).length = rest.length + 1 := rfl
    rw [hlen] at h ⊢
    have h15 : c.sp ≠ STACK_SIZE - 1 := by omega
    have hpush := push_ok c val h15
    set cA : Cpu :=
      { c with sp := c.sp + 1, stack := setStack c.stack (c.sp + 1) val } with hcA
    have hAsp : cA.sp = c.sp + 1 := rfl
    have hA_f : framesEq cA c := ⟨rfl, rfl, rfl, rfl, rfl, rfl⟩
    have hA_le : cA.sp + rest.length ≤ STACK_SIZE - 1 := by
      rw [hAsp]
      omega
    obtain ⟨c1, c2, hpl, hc1sp, hc1f, hpn, hc2sp, hc2f, hagree⟩ := ih cA hA_le
    have hPL : c.pushList (val :: rest) = (.ok (), c1) := by
      unfold Cpu.pushList
      rw [hpush]
      exact hpl
    have hc2sp1 : c2.sp = c.sp + 1 := by rw [hc2sp, hAsp]
    have hlt : c.sp + 1 < 16 := by omega
    have hval : getStack c2.stack c2.sp = val := by
      rw [hc2sp1, getStack_lt _ _ hlt]
      have hag := hagree ⟨c.sp + 1, hlt⟩ (by simp [hAsp])
      rw [hag]
      show setStack c.stack (c.sp + 1) val ⟨c.sp + 1, hlt⟩ = val
      exact setStack_apply_self _ _ _ hlt
    have hpop1 : c2.pop = (.ok val, { c2 with sp := c.sp }) := by
      have hp := pop_ok c2 (by omega)
      rw [hval] at hp
      rw [hc2sp1] at hp
      simpa using hp
    have hpn1 : c2.popN 1 = (.ok [val], { c2 with sp := c.sp }) := by
      simp [Cpu.popN, hpop1]
    have hPN : c1.popN (rest.length + 1) =
        (.ok (rest.reverse ++ [val]), { c2 with sp := c.sp }) :=
      popN_add rest.length 1 c1 c2 { c2 with sp := c.sp } rest.reverse [val]
        hpn hpn1
    refine ⟨c1, { c2 with sp := c.sp }, hPL, ?_, ?_, ?_, rfl, ?_, ?_⟩
    · rw [hc1sp, hAsp]
      omega
    · exact framesEq_trans hc1f hA_f
    · rw [List.reverse_cons]
      exact hPN
    · exact framesEq_trans ⟨rfl, rfl, rfl, rfl, rfl, rfl⟩
        (framesEq_trans hc2f hA_f)
    · intro k hk
      have h2 : c2.stack k = cA.stack k := by
        refine hagree k ?_
        rw [hAsp]
        omega
      have h3 : cA.stack k = c.stack k := by
        show setStack c.stack (c.sp + 1) val k = c.stack k
        exact setStack_apply_ne _ _ _ _ (by omega)
      show c2.stack k = c.stack k
      rw [h2, h3]

/-- C1: for every sequence of at most 15 values, pushing them in order onto
a freshly constructed CPU succeeds, and popping the same number of times
returns exactly the pushed values in reverse order, with the stack pointer
back at 0 at the end. -/
theorem push_pop_lifo_roundtrip (vs : List Nat) (h : vs.length ≤ 15) :
    ∃ c1 c2,
      Cpu.mk0.pushList vs = (.ok (), c1) ∧
      c1.popN vs.length = (.ok vs.reverse, c2) ∧
      c2.sp = 0 := by
  have h0 : Cpu.mk0.sp + vs.length ≤ STACK_SIZE - 1 := by
    have hS : STACK_SIZE = 16 := rfl
    have hsp : Cpu.mk0.sp = 0 := rfl
    omega
  obtain ⟨c1, c2, h1, _, _, h4, h5, _⟩ := push_pop_aux vs Cpu.mk0 h0
  exact ⟨c1, c2, h1, h4, h5⟩

/-- Witness for `push_pop_lifo_roundtrip` on the sequence `[1, 2, 3]`:
pushing 1, 2, 3 and popping three times yields `[3, 2, 1]` with the stack
pointer back at 0. -/
theorem push_pop_lifo_roundtrip_witness :
    ([1, 2, 3] : List Nat).length ≤ 15 ∧
    ∃ c1 c2,
      Cpu.mk0.pushList [1, 2, 3] = (.ok (), c1) ∧
      c1.popN ([1, 2, 3] : List Nat).length =
        (.ok ([1, 2, 3] : List Nat).reverse, c2) ∧
      c2.sp = 0 :=
  ⟨by decide, push_pop_lifo_roundtrip [1, 2, 3] (by decide)⟩
